import Mathlib

unseal Rat.add Rat.mul Rat.sub Rat.inv

/-!
Shallow embedding of the Multi-Stock-GRU-predict data pipeline
(`src/data-loader.js`, `src/gru.js`, and the z-score variant in
`src/unnamed/part_000`) together with proofs of the claimed properties.

JavaScript numbers are modelled by `JsNum`: an exact rational together with
the two infinities and NaN, with the IEEE-754 propagation rules for the
operations the pipeline uses (subtraction, division, `Math.min`/`Math.max`,
`>` comparison, `=== 0`).  Finite arithmetic is exact (rationals), which is
the usual abstraction of double rounding; none of the claims hinges on
rounding of finite values.
-/

namespace StockGRU

/-- A JavaScript number: NaN, +Infinity (`inf true`), -Infinity (`inf false`),
or a finite value modelled as an exact rational. -/
inductive JsNum where
  | nan : JsNum
  | inf : Bool → JsNum
  | num : ℚ → JsNum
deriving DecidableEq, Repr

/-- JS subtraction `a - b` with IEEE propagation: NaN is absorbing and
`∞ - ∞ = NaN`. -/
def jsSub : JsNum → JsNum → JsNum
  | .nan, _ => .nan
  | _, .nan => .nan
  | .inf a, .inf b => if a = b then .nan else .inf a
  | .inf a, .num _ => .inf a
  | .num _, .inf b => .inf (!b)
  | .num a, .num b => .num (a - b)

/-- JS division `a / b` with IEEE propagation: NaN absorbing, `∞/∞ = NaN`,
`x/±∞ = 0`, `x/0 = ±∞` for finite nonzero `x` and `0/0 = NaN`. -/
def jsDiv : JsNum → JsNum → JsNum
  | .nan, _ => .nan
  | _, .nan => .nan
  | .inf _, .inf _ => .nan
  | .inf a, .num b => if b < 0 then .inf (!a) else .inf a
  | .num _, .inf _ => .num 0
  | .num a, .num b =>
      if b = 0 then (if a = 0 then .nan else if a > 0 then .inf true else .inf false)
      else .num (a / b)

/-- `Math.min`: NaN absorbing, `+∞` is the identity, `-∞` is absorbing. -/
def jsMin : JsNum → JsNum → JsNum
  | .nan, _ => .nan
  | _, .nan => .nan
  | .inf true, y => y
  | .inf false, _ => .inf false
  | x, .inf true => x
  | _, .inf false => .inf false
  | .num a, .num b => .num (min a b)

/-- `Math.max`: NaN absorbing, `-∞` is the identity, `+∞` is absorbing. -/
def jsMax : JsNum → JsNum → JsNum
  | .nan, _ => .nan
  | _, .nan => .nan
  | .inf false, y => y
  | .inf true, _ => .inf true
  | x, .inf false => x
  | _, .inf true => .inf true
  | .num a, .num b => .num (max a b)

/-- JS strict comparison `a > b`: any comparison involving NaN is `false`. -/
def jsGt : JsNum → JsNum → Bool
  | .nan, _ => false
  | _, .nan => false
  | .inf true, .inf true => false
  | .inf true, _ => true
  | .inf false, _ => false
  | .num _, .inf true => false
  | .num _, .inf false => true
  | .num a, .num b => decide (b < a)

/-- JS strict equality test against zero (`x === 0`): only the finite value 0
passes; NaN and the infinities do not. -/
def jsIsZero : JsNum → Bool
  | .num a => decide (a = 0)
  | _ => false

/-- One parsed (symbol, date) observation as stored by
`parseCSV` in `src/data-loader.js` (lines 61-67): the five numeric fields,
each the result of `parseFloat` and hence possibly NaN. -/
structure Obs where
  Open : JsNum
  Close : JsNum
  High : JsNum
  Low : JsNum
  Volume : JsNum
deriving DecidableEq, Repr

/-- Accumulate a run of leading decimal digits, returning the value, the
number of digits consumed, and the rest of the characters. -/
def digitsVal : List Char → ℕ × ℕ × List Char
  | [] => (0, 0, [])
  | c :: cs =>
      if c.isDigit then
        let (v, n, rest) := digitsVal cs
        (c.toNat - '0'.toNat) * 10 ^ n + v |> fun v' => (v', n + 1, rest)
      else (0, 0, c :: cs)

/-- Model of the JS builtin `parseFloat` as used on the CSV fields: skip
leading whitespace, optional sign, then a decimal literal `digits[.digits]`
or `.digits`; any trailing garbage is ignored; if no digit is consumed the
result is NaN.  (Exponent and `Infinity` forms never occur in the
repository's data format and are not modelled.) -/
def jsParseFloat (s : String) : JsNum :=
  let cs := s.toList.dropWhile (fun c => c = ' ' ∨ c = '\t' ∨ c = '\n' ∨ c = '\r')
  let (neg, cs') := match cs with
    | '-' :: r => (true, r)
    | '+' :: r => (false, r)
    | _ => (false, cs)
  let (ip, icnt, rest) := digitsVal cs'
  let (fp, fcnt) := match rest with
    | '.' :: r => let (v, n, _) := digitsVal r; (v, n)
    | _ => (0, 0)
  if icnt = 0 ∧ fcnt = 0 then .nan
  else
    let q : ℚ := (ip : ℚ) + (fp : ℚ) / (10 ^ fcnt : ℚ)
    .num (if neg then -q else q)

/-- Whitespace as removed by `String.prototype.trim` (the forms occurring
in CSV text). -/
def wsChar (c : Char) : Bool := c = ' ' ∨ c = '\t' ∨ c = '\n' ∨ c = '\r'

/-- Trim leading and trailing whitespace from a character list. -/
def trimChars (l : List Char) : List Char :=
  ((l.dropWhile wsChar).reverse.dropWhile wsChar).reverse

/-- JS `s.trim()`. -/
def jsTrim (s : String) : String := ⟨trimChars s.toList⟩

/-- JS `s.split(sep)` for a single-character separator: splitting the empty
string yields `[""]`, and separators at the ends yield empty fields, exactly
as in JS. -/
def splitOnChar (sep : Char) : List Char → List (List Char)
  | [] => [[]]
  | c :: cs =>
      if c = sep then [] :: splitOnChar sep cs
      else match splitOnChar sep cs with
        | [] => [[c]]
        | g :: gs => (c :: g) :: gs

/-- JS `s.split(sep)` on strings. -/
def jsSplit (sep : Char) (s : String) : List String :=
  (splitOnChar sep s.toList).map String.mk

/-- Strict lexicographic comparison of character lists by code point, the
order JS string comparison uses (for the repository's ASCII symbols and ISO
dates, code units and code points agree). -/
def charsLt : List Char → List Char → Bool
  | [], [] => false
  | [], _ :: _ => true
  | _ :: _, [] => false
  | a :: as, b :: bs =>
      if a.toNat < b.toNat then true
      else if b.toNat < a.toNat then false
      else charsLt as bs

/-- Strict lexicographic string comparison. -/
def strLt (a b : String) : Bool := charsLt a.toList b.toList

/-- Non-strict lexicographic string comparison. -/
def strLe (a b : String) : Bool := !(strLt b a)

/-- Insert into a lexicographically sorted list of strings. -/
def insertLe (a : String) : List String → List String
  | [] => [a]
  | b :: l => if strLe a b then a :: b :: l else b :: insertLe a l

/-- Sort strings lexicographically.  JS `Array.prototype.sort()` compares
strings by code units; on the deduplicated symbol/date sets the sorted
result is unique, so any correct sort models it. -/
def sortLe : List String → List String
  | [] => []
  | a :: l => insertLe a (sortLe l)

/-- The loader state after `parseCSV` (`src/data-loader.js` lines 36-75):
the sorted symbol list, the sorted date list, and the
symbol → date → observation panel (`this.stocksData`), with `none` for a
missing entry. -/
structure LoaderState where
  symbols : List String
  dates : List String
  stocksData : String → String → Option Obs

/-- Lookup of `row[key]` where the row object was filled by
`headers.forEach((h, i) => row[h.trim()] = values[i].trim())`: a duplicate
header means the later assignment wins, hence the reversed lookup. -/
def rowGet (row : List (String × String)) (key : String) : Option String :=
  row.reverse.lookup key

/-- The observation built from one CSV row (`src/data-loader.js` lines
61-67).  A field absent from the header reads as JS `undefined`, and
`parseFloat(undefined)` is NaN, matched here by parsing the empty string. -/
def obsOfRow (row : List (String × String)) : Obs :=
  { Open := jsParseFloat ((rowGet row "Open").getD "")
    Close := jsParseFloat ((rowGet row "Close").getD "")
    High := jsParseFloat ((rowGet row "High").getD "")
    Low := jsParseFloat ((rowGet row "Low").getD "")
    Volume := jsParseFloat ((rowGet row "Volume").getD "") }

/-- `row.Symbol` (resp. `row.Date`): when the column is absent JS yields
`undefined`, which coerces to the string "undefined" when used as an object
key, matched here by the default. -/
def rowKey (row : List (String × String)) (key : String) : String :=
  (rowGet row key).getD "undefined"

/-- The data rows of the CSV text: split on newlines (after a global trim),
drop the header, keep only the rows whose field count matches the header,
and pair each trimmed value with its trimmed header
(`src/data-loader.js` lines 37-52). -/
def csvRows (csvText : String) : List (List (String × String)) :=
  let lines := jsSplit '\n' (jsTrim csvText)
  let headers := jsSplit ',' (lines.headD "")
  (lines.drop 1).filterMap (fun line =>
    let values := jsSplit ',' line
    if values.length = headers.length then
      some ((headers.zip values).map (fun hv => (jsTrim hv.1, jsTrim hv.2)))
    else none)

/-- `parseCSV` (`src/data-loader.js` lines 36-75): build the panel with
last-writer-wins on duplicate (symbol, date) rows, and the sorted
deduplicated symbol and date lists. -/
def parseCSV (csvText : String) : LoaderState :=
  let rows := csvRows csvText
  { symbols := sortLe (rows.map (fun r => rowKey r "Symbol")).dedup
    dates := sortLe (rows.map (fun r => rowKey r "Date")).dedup
    stocksData := rows.foldl
      (fun f r => fun s d =>
        if s = rowKey r "Symbol" ∧ d = rowKey r "Date" then some (obsOfRow r) else f s d)
      (fun _ _ => none) }

/-- The JS body of `parseCSV` contains no `throw` and no fallible operation:
every control path returns normally.  This wrapper records that fact in an
`Except`, where a thrown `DataError` would be `.error`. -/
def parseCSVRun (csvText : String) : Except String LoaderState :=
  .ok (parseCSV csvText)

/-- A running {min, max} pair for one feature of one symbol, initialised to
`{min: Infinity, max: -Infinity}` (`src/data-loader.js` lines 90-95). -/
structure MinMax where
  mn : JsNum
  mx : JsNum
deriving DecidableEq, Repr

/-- The initial accumulator `{min: Infinity, max: -Infinity}`. -/
def initMM : MinMax := ⟨.inf true, .inf false⟩

/-- Fold one value into a running min/max pair. -/
def updMM (mm : MinMax) (v : JsNum) : MinMax := ⟨jsMin mm.mn v, jsMax mm.mx v⟩

/-- The derived Return feature
`point.Open !== 0 ? (point.Close - point.Open) / point.Open : 0`
(`src/data-loader.js` lines 116 and 131). -/
def jsRet (p : Obs) : JsNum :=
  if jsIsZero p.Open then .num 0 else jsDiv (jsSub p.Close p.Open) p.Open

/-- The per-symbol normalization statistics: one min/max pair per feature,
including the derived Return (`src/data-loader.js` lines 89-96). -/
structure Stats where
  Open : MinMax
  Close : MinMax
  High : MinMax
  Low : MinMax
  Volume : MinMax
  Return : MinMax
deriving DecidableEq, Repr

/-- The all-initial statistics record. -/
def initStats : Stats := ⟨initMM, initMM, initMM, initMM, initMM, initMM⟩

/-- Fold one observation into the statistics
(`src/data-loader.js` lines 102-118). -/
def updStats (st : Stats) (p : Obs) : Stats :=
  { Open := updMM st.Open p.Open
    Close := updMM st.Close p.Close
    High := updMM st.High p.High
    Low := updMM st.Low p.Low
    Volume := updMM st.Volume p.Volume
    Return := updMM st.Return (jsRet p) }

/-- The statistics pass of `normalizeData` for one symbol: fold over the
canonical date axis, skipping missing entries
(`src/data-loader.js` lines 98-120). -/
def statsOf (dates : List String) (dataS : String → Option Obs) : Stats :=
  dates.foldl (fun st d => match dataS d with
    | some p => updStats st p
    | none => st) initStats

/-- A per-feature min/max fold from an arbitrary start, used to reason
about `statsOf` componentwise. -/
def featMMFrom (mm0 : MinMax) (dates : List String)
    (dataS : String → Option Obs) (g : Obs → JsNum) : MinMax :=
  dates.foldl (fun mm d => match dataS d with
    | some p => updMM mm (g p)
    | none => mm) mm0

/-- A per-feature min/max fold from the initial accumulator. -/
def featMM (dates : List String) (dataS : String → Option Obs)
    (g : Obs → JsNum) : MinMax :=
  featMMFrom initMM dates dataS g

/-- Min-max scaling of one value:
`denom === 0 ? 0 : (v - min) / denom` with `denom = max - min`
(`src/data-loader.js` lines 134-135). -/
def normFeat (mm : MinMax) (v : JsNum) : JsNum :=
  let denom := jsSub mm.mx mm.mn
  if jsIsZero denom then .num 0 else jsDiv (jsSub v mm.mn) denom

/-- One normalized observation: the five raw features plus the derived
Return, in the fixed order of `src/data-loader.js` lines 132-141. -/
structure NormPoint where
  Open : JsNum
  Close : JsNum
  High : JsNum
  Low : JsNum
  Volume : JsNum
  Return : JsNum
deriving DecidableEq, Repr

/-- Normalize one observation against its symbol's statistics
(`src/data-loader.js` lines 130-141). -/
def normPoint (st : Stats) (p : Obs) : NormPoint :=
  { Open := normFeat st.Open p.Open
    Close := normFeat st.Close p.Close
    High := normFeat st.High p.High
    Low := normFeat st.Low p.Low
    Volume := normFeat st.Volume p.Volume
    Return := normFeat st.Return (jsRet p) }

/-- The normalized panel `this.normalizedData`: populated exactly for
symbols in the canonical symbol list and dates on the canonical axis whose
raw observation exists (`src/data-loader.js` lines 126-144). -/
def normalizedOf (symbols dates : List String)
    (data : String → String → Option Obs) (s d : String) : Option NormPoint :=
  if s ∈ symbols ∧ d ∈ dates then
    (data s d).map (normPoint (statsOf dates (data s)))
  else none

/-- `normalizeData` (`src/data-loader.js` lines 77-150).  After building the
normalized panel, line 147 evaluates
`Object.keys(this.normalizedData[this.symbols[0]][this.dates[0]]).length`,
which throws a TypeError when that entry is `undefined` (no first symbol, no
first date, or no observation of the first symbol on the first date);
otherwise it returns the panel together with `numFeaturesPerStock = 6`, the
key count of a normalized point.  The `Option` result is `none` exactly on
the throwing paths. -/
def normalizeData (L : LoaderState) :
    Option ((String → String → Option NormPoint) × ℕ) :=
  let nd := normalizedOf L.symbols L.dates L.stocksData
  match L.symbols.head?, L.dates.head? with
  | some s0, some d0 =>
      match nd s0 d0 with
      | some _ => some (nd, 6)
      | none => none
  | _, _ => none

/-- The candidate anchor indices
`for (let i = sequenceLength; i < this.dates.length - predictionHorizon; i++)`
(`src/data-loader.js` line 165).  With truncated subtraction the range is
empty when the horizon reaches past the date axis, matching the JS loop. -/
def seqIndices (numDates seqLen H : ℕ) : List ℕ :=
  List.range' seqLen ((numDates - H) - seqLen)

/-- The window dates of anchor index `i`: iteration
`for (let j = sequenceLength - 1; j >= 0; j--)` reads `dates[i - j]`, i.e.
`dates[i-seqLen+1 .. i]` oldest first (`src/data-loader.js` lines 173-174). -/
def windowDates (dates : List String) (seqLen i : ℕ) : List String :=
  (List.range seqLen).reverse.map (fun j => dates.getD (i - j) "")

/-- The feature vector of one timestep: for each symbol in canonical order,
its six normalized features in the fixed order Open, Close, High, Low,
Volume, Return (`src/data-loader.js` lines 177-194).  Only used for valid
windows, where every lookup succeeds. -/
def timeStep (symbols : List String)
    (nd : String → String → Option NormPoint) (d : String) : List JsNum :=
  symbols.flatMap (fun s => match nd s d with
    | some n => [n.Open, n.Close, n.High, n.Low, n.Volume, n.Return]
    | none => [])

/-- A candidate window is valid when every symbol has a normalized point on
every window date (the `validSequence` flag of
`src/data-loader.js` lines 168-197). -/
def windowValid (symbols : List String)
    (nd : String → String → Option NormPoint)
    (dates : List String) (seqLen i : ℕ) : Bool :=
  (windowDates dates seqLen i).all (fun d =>
    symbols.all (fun s => (nd s d).isSome))

/-- The label block is valid when every symbol has a raw observation on
every future date `dates[i+offset]`, `offset = 1..H`
(the `futureClose !== undefined` check of
`src/data-loader.js` lines 209-219; `?.Close` is `undefined` exactly when
the observation is missing). -/
def labelsValid (symbols : List String)
    (data : String → String → Option Obs)
    (dates : List String) (H i : ℕ) : Bool :=
  (List.range' 1 H).all (fun off =>
    symbols.all (fun s => (data s (dates.getD (i + off) "")).isSome))

/-- The raw Close of symbol `s` at date `d`, with NaN as the (unreachable on
accepted windows) placeholder for a missing observation. -/
def closeAt (data : String → String → Option Obs) (s d : String) : JsNum :=
  (data s d).elim .nan Obs.Close

/-- The label vector of an accepted window
(`src/data-loader.js` lines 203-219): offset blocks in increasing offset
order, each block listing the symbols in canonical order, the entry being
`futureClose > baseClose ? 1 : 0`. -/
def targetOf (symbols : List String) (data : String → String → Option Obs)
    (dates : List String) (H i : ℕ) : List ℕ :=
  (List.range' 1 H).flatMap (fun off =>
    symbols.map (fun s =>
      if jsGt (closeAt data s (dates.getD (i + off) ""))
              (closeAt data s (dates.getD i "")) then 1 else 0))

/-- The sequence tensor slice of an accepted window: one timestep per window
date (`src/data-loader.js` lines 173-197). -/
def sequenceOf (symbols : List String)
    (nd : String → String → Option NormPoint)
    (dates : List String) (seqLen i : ℕ) : List (List JsNum) :=
  (windowDates dates seqLen i).map (timeStep symbols nd)

/-- The accepted anchor indices: candidates whose window and label lookups
all succeed (`src/data-loader.js` lines 165-227). -/
def acceptedIndices (L : LoaderState)
    (nd : String → String → Option NormPoint) (seqLen H : ℕ) : List ℕ :=
  (seqIndices L.dates.length seqLen H).filter (fun i =>
    windowValid L.symbols nd L.dates seqLen i
      && labelsValid L.symbols L.stocksData L.dates H i)

/-- `Math.floor(n * 0.8)` on a JS array length.  For every length below
2^52 the double computation agrees with exact `⌊4n/5⌋` (the relative error
of the literal `0.8` is below half an ulp of the product), so the exact
form is used. -/
def splitIndex (n : ℕ) : ℕ := n * 4 / 5

/-- The result record of `createSequences`
(`src/data-loader.js` lines 229-248).  Tensors are modelled as the nested
lists they are built from. -/
structure SeqResult where
  sequences : List (List (List JsNum))
  targets : List (List ℕ)
  validDates : List String
  X_train : List (List (List JsNum))
  y_train : List (List ℕ)
  X_test : List (List (List JsNum))
  y_test : List (List ℕ)
  testDates : List String

/-- The main loop and split of `createSequences`
(`src/data-loader.js` lines 158-248), given an already-built normalized
panel. -/
def createSequencesCore (L : LoaderState)
    (nd : String → String → Option NormPoint) (seqLen H : ℕ) : SeqResult :=
  let acc := acceptedIndices L nd seqLen H
  let sequences := acc.map (sequenceOf L.symbols nd L.dates seqLen)
  let targets := acc.map (targetOf L.symbols L.stocksData L.dates H)
  let validDates := acc.map (fun i => L.dates.getD i "")
  let k := splitIndex sequences.length
  { sequences := sequences
    targets := targets
    validDates := validDates
    X_train := sequences.take k
    y_train := targets.take k
    X_test := sequences.drop k
    y_test := targets.drop k
    testDates := validDates.drop k }

/-- `createSequences` (`src/data-loader.js` lines 152-249): line 156
auto-invokes `normalizeData` when the normalized panel is absent, so a
throwing `normalizeData` makes `createSequences` throw, modelled by
`none`. -/
def createSequences (L : LoaderState) (seqLen H : ℕ) : Option SeqResult :=
  (normalizeData L).map (fun nd => createSequencesCore L nd.1 seqLen H)

/-- The thresholds vector set by the `GRUModel` constructor:
`Array(outputSize).fill(0.5)` (`src/gru.js` line 7). -/
def initThresholds (outputSize : ℕ) : List ℚ :=
  List.replicate outputSize (1/2)

/-- The threshold the evaluator applies to column `k`:
`this.thresholds[k] ?? 0.5` (`src/gru.js` line 131) — an out-of-range read
yields `undefined` and falls back to 0.5. -/
def thresholdAt (ths : List ℚ) (k : ℕ) : ℚ := ths.getD k (1/2)

/-- The calibration grid of `setThresholdsFromValidation`
(`src/gru.js` lines 100-101):
`for (let t = 0.2; t <= 0.8; t += 0.01) grid.push(parseFloat(t.toFixed(2)))`.
The accumulated double drifts just above 0.8 at the last step, so the loop
pushes exactly the 60 values 0.20, 0.21, …, 0.79 (each `toFixed(2)` rounding
restores the exact hundredth). -/
def thresholdGrid : List ℚ :=
  (List.range' 20 60).map (fun (k : ℕ) => (k : ℚ) / 100)

/-- The number of validation rows on which column `k`'s thresholded
prediction matches the truth (`src/gru.js` lines 106-111). -/
def colCorrect (yT yP : List (List ℚ)) (k : ℕ) (th : ℚ) : ℕ :=
  ((List.range yT.length).filter (fun i =>
    (if (yP.getD i []).getD k 0 > th then (1 : ℚ) else 0)
      = (yT.getD i []).getD k 0)).length

/-- The validation accuracy of column `k` at threshold `th`:
`correct / (total || 1)` with `total = yT.length`
(`src/gru.js` line 112). -/
def colAccuracy (yT yP : List (List ℚ)) (k : ℕ) (th : ℚ) : ℚ :=
  (colCorrect yT yP k th : ℚ) / (if yT.length = 0 then 1 else (yT.length : ℚ))

/-- The per-column grid scan of `setThresholdsFromValidation`
(`src/gru.js` lines 103-115): start from `(bestT, bestAcc) = (0.5, -1)` and
replace on strictly greater accuracy, so the first (lowest) maximizer
survives. -/
def bestThreshold (yT yP : List (List ℚ)) (k : ℕ) : ℚ :=
  (thresholdGrid.foldl
    (fun b th =>
      let acc := colAccuracy yT yP k th
      if acc > b.2 then (th, acc) else b)
    ((1/2 : ℚ), (-1 : ℚ))).1

/-- The generic form of the per-column scan loop: fold a candidate list,
replacing the running `(bestT, bestAcc)` pair exactly on strictly greater
score.  `bestThreshold` is this scan at `f = colAccuracy`. -/
def scanBest (f : ℚ → ℚ) (b : ℚ × ℚ) (l : List ℚ) : ℚ × ℚ :=
  l.foldl (fun b th => if f th > b.2 then (th, f th) else b) b

/-- `setThresholdsFromValidation` (`src/gru.js` lines 97-117): every entry
of the thresholds vector is replaced by its column's best grid threshold. -/
def setThresholdsFromValidation (outputSize : ℕ) (yT yP : List (List ℚ)) :
    List ℚ :=
  (List.range outputSize).map (bestThreshold yT yP)

/-- One entry of the per-symbol prediction trace
`{ true: truth, pred, correct: pred === truth }`
(`src/gru.js` line 136). -/
structure EvalEntry where
  truth : ℚ
  pred : ℚ
  correct : Bool
deriving DecidableEq, Repr

/-- The result of `evaluatePerStock`: per-symbol accuracy and per-symbol
ordered prediction trace (`src/gru.js` lines 122-143). -/
structure EvalResult where
  stockAccuracies : List (String × ℚ)
  stockPredictions : List (String × List EvalEntry)
deriving DecidableEq, Repr

/-- The trace entries for the symbol at canonical index `sIdx`: rows in
order, offsets `o = 0..horizon-1` inside each row, reading column
`k = sIdx * horizon + o` of both the truth and the prediction matrix and
thresholding with `thresholds[k] ?? 0.5` (`src/gru.js` lines 128-138). -/
def stockEntries (ths : List ℚ) (yT yP : List (List ℚ))
    (horizon sIdx : ℕ) : List EvalEntry :=
  (List.range yT.length).flatMap (fun i =>
    (List.range horizon).map (fun o =>
      let k := sIdx * horizon + o
      let th := thresholdAt ths k
      let pred : ℚ := if (yP.getD i []).getD k 0 > th then 1 else 0
      let truth : ℚ := (yT.getD i []).getD k 0
      ⟨truth, pred, pred = truth⟩))

/-- `evaluatePerStock` (`src/gru.js` lines 119-144): per-symbol accuracy is
`total ? correct / total : 0`. -/
def evaluatePerStock (ths : List ℚ) (yT yP : List (List ℚ))
    (symbols : List String) (horizon : ℕ) : EvalResult :=
  { stockAccuracies := symbols.enum.map (fun si =>
      let es := stockEntries ths yT yP horizon si.1
      (si.2, if es.length = 0 then 0
             else ((es.filter (·.correct)).length : ℚ) / (es.length : ℚ)))
    stockPredictions := symbols.enum.map (fun si =>
      (si.2, stockEntries ths yT yP horizon si.1)) }

/-- Stated from the spec's words for the refinement claim about an
uncalibrated model: the same evaluator with every column thresholded at
exactly 0.5. -/
def stockEntriesFixedHalf (yT yP : List (List ℚ))
    (horizon sIdx : ℕ) : List EvalEntry :=
  (List.range yT.length).flatMap (fun i =>
    (List.range horizon).map (fun o =>
      let k := sIdx * horizon + o
      let th : ℚ := 1/2
      let pred : ℚ := if (yP.getD i []).getD k 0 > th then 1 else 0
      let truth : ℚ := (yT.getD i []).getD k 0
      ⟨truth, pred, pred = truth⟩))

/-- The spec-side evaluator with the constant decision threshold 0.5. -/
def evaluatePerStockFixedHalf (yT yP : List (List ℚ))
    (symbols : List String) (horizon : ℕ) : EvalResult :=
  { stockAccuracies := symbols.enum.map (fun si =>
      let es := stockEntriesFixedHalf yT yP horizon si.1
      (si.2, if es.length = 0 then 0
             else ((es.filter (·.correct)).length : ℚ) / (es.length : ℚ)))
    stockPredictions := symbols.enum.map (fun si =>
      (si.2, stockEntriesFixedHalf yT yP horizon si.1)) }

/-- An Open/Close observation of the two-feature variant loader
(`src/unnamed/part_000` lines 51-54), with the numeric values taken to be
finite rationals. -/
structure Obs2 where
  Open : ℚ
  Close : ℚ
deriving DecidableEq, Repr

/-- The first pass of the z-score `normalizeData`
(`src/unnamed/part_000` lines 68-74): sums of Open and Close and the count
of available dates, accumulated in one loop. -/
def zPass1 (dates : List String) (dataS : String → Option Obs2) :
    ℚ × ℚ × ℕ :=
  dates.foldl (fun acc d => match dataS d with
    | some p => (acc.1 + p.Open, acc.2.1 + p.Close, acc.2.2 + 1)
    | none => acc) (0, 0, 0)

/-- The second pass (`src/unnamed/part_000` lines 77-83): sums of squared
deviations from the given means. -/
def zPass2 (dates : List String) (dataS : String → Option Obs2)
    (meanO meanC : ℚ) : ℚ × ℚ :=
  dates.foldl (fun acc d => match dataS d with
    | some p => (acc.1 + (p.Open - meanO) * (p.Open - meanO),
                 acc.2 + (p.Close - meanC) * (p.Close - meanC))
    | none => acc) (0, 0)

/-- The per-symbol z-score statistics (`src/unnamed/part_000` lines 68-87):
`mean = cnt ? sum/cnt : 0`, `std = cnt > 1 ? sqrt(var/(cnt-1)) : 1`, then
`std || 1` replaces a zero std by 1.  Square roots are irrational in
general, so the embedding is parametrised by the square-root function
`sq`; the claims only need its value at 0. -/
structure ZStats where
  meanO : ℚ
  meanC : ℚ
  stdO : ℚ
  stdC : ℚ
deriving DecidableEq, Repr

/-- Compute the z-score statistics for one symbol. -/
def zStatsOf (sq : ℚ → ℚ) (dates : List String)
    (dataS : String → Option Obs2) : ZStats :=
  let p1 := zPass1 dates dataS
  let cnt := p1.2.2
  let meanO := if cnt = 0 then 0 else p1.1 / cnt
  let meanC := if cnt = 0 then 0 else p1.2.1 / cnt
  let p2 := zPass2 dates dataS meanO meanC
  let stdO := if 1 < cnt then sq (p2.1 / (cnt - 1 : ℕ)) else 1
  let stdC := if 1 < cnt then sq (p2.2 / (cnt - 1 : ℕ)) else 1
  { meanO := meanO
    meanC := meanC
    stdO := if stdO = 0 then 1 else stdO
    stdC := if stdC = 0 then 1 else stdC }

/-- A running count of available dates, used to reason about `zPass1`
componentwise. -/
def countFrom (n : ℕ) (dates : List String)
    (dataS : String → Option Obs2) : ℕ :=
  dates.foldl (fun n d => match dataS d with
    | some _ => n + 1
    | none => n) n

/-- A running sum of one feature over the available dates, used to reason
about `zPass1` componentwise. -/
def sumFrom (a : ℚ) (dates : List String) (dataS : String → Option Obs2)
    (g : Obs2 → ℚ) : ℚ :=
  dates.foldl (fun a d => match dataS d with
    | some p => a + g p
    | none => a) a

/-- A running sum of squared deviations of one feature, used to reason
about `zPass2` componentwise. -/
def varFrom (a : ℚ) (dates : List String) (dataS : String → Option Obs2)
    (g : Obs2 → ℚ) (m : ℚ) : ℚ :=
  dates.foldl (fun a d => match dataS d with
    | some p => a + (g p - m) * (g p - m)
    | none => a) a

/-- The z-score normalized panel for one symbol
(`src/unnamed/part_000` lines 90-102). -/
def zNormalize (sq : ℚ → ℚ) (dates : List String)
    (dataS : String → Option Obs2) (d : String) : Option Obs2 :=
  if d ∈ dates then
    (dataS d).map (fun p =>
      let st := zStatsOf sq dates dataS
      ⟨(p.Open - st.meanO) / st.stdO, (p.Close - st.meanC) / st.stdC⟩)
  else none

/-- A CSV input whose only anomaly is one non-numeric Close field
(`abc` on 2020-01-02). -/
def csvBadClose : String :=
  "Symbol,Date,Open,Close,High,Low,Volume\nA,2020-01-01,1,1,1,1,1\nA,2020-01-02,1,abc,1,1,1\nA,2020-01-03,1,2,1,1,1\nA,2020-01-04,1,3,1,1,1"

/-- A well-formed CSV with two symbols and five dates whose Close series
make the label blocks pairwise distinguishable. -/
def csvTwoSymbols : String :=
  "Symbol,Date,Open,Close,High,Low,Volume\nA,2020-01-01,1,5,1,1,1\nA,2020-01-02,1,10,1,1,1\nA,2020-01-03,1,20,1,1,1\nA,2020-01-04,1,5,1,1,1\nA,2020-01-05,1,5,1,1,1\nB,2020-01-01,1,5,1,1,1\nB,2020-01-02,1,10,1,1,1\nB,2020-01-03,1,5,1,1,1\nB,2020-01-04,1,20,1,1,1\nB,2020-01-05,1,1,1,1,1"

/-- A small constant-feature observation used by witnesses. -/
def constObs : Obs :=
  { Open := .num 3, Close := .num 7, High := .num 9, Low := .num 2,
    Volume := .num 5 }

/-- A panel function agreeing with `leakData2` on symbol A and differing
everywhere else, used by the non-interference witness. -/
def leakData1 : String → String → Option Obs :=
  fun s d =>
    if s = "A" then (if d = "2020-01-01" then some constObs else none)
    else some { Open := .num 1, Close := .num 1, High := .num 1,
                Low := .num 1, Volume := .num 1 }

/-- A panel function agreeing with `leakData1` on symbol A only. -/
def leakData2 : String → String → Option Obs :=
  fun s d =>
    if s = "A" then (if d = "2020-01-01" then some constObs else none)
    else some { Open := .num 400, Close := .num 2, High := .num 500,
                Low := .num 1, Volume := .num 9 }

/-- A constant two-feature series on the same three dates, used by the
z-score witness. -/
def constData2 : String → Option Obs2 := fun d =>
  if d = "2020-01-01" ∨ d = "2020-01-02" ∨ d = "2020-01-03"
  then some ⟨3, 7⟩ else none

/-- A tiny loader state with one symbol, three dates and a constant
observation on every date, used by witnesses. -/
def constState : LoaderState :=
  { symbols := ["A"]
    dates := ["2020-01-01", "2020-01-02", "2020-01-03"]
    stocksData := fun s d =>
      if s = "A" ∧ (d = "2020-01-01" ∨ d = "2020-01-02" ∨ d = "2020-01-03")
      then some constObs else none }

/-! ## Theorems -/

/-- C3: the claim says `parseCSV` raises a `DataError` whenever zero valid
rows are parsed or a required column is missing.  The function body of
`parseCSV` (`src/data-loader.js` lines 36-75) contains no throw at all: a
header-only input (zero valid rows) returns an empty panel without error,
and an input missing the required Symbol column also returns without error,
storing the rows under the coerced key "undefined". -/
theorem parseCSV_never_raises :
    (parseCSVRun "Symbol,Date,Open,Close").isOk = true
    ∧ (parseCSV "Symbol,Date,Open,Close").symbols = []
    ∧ (parseCSV "Symbol,Date,Open,Close").dates = []
    ∧ (parseCSVRun "Date,Open,Close\n2020-01-01,1,2").isOk = true
    ∧ (parseCSV "Date,Open,Close\n2020-01-01,1,2").symbols = ["undefined"] := by
  refine ⟨rfl, by decide, by decide, rfl, by decide⟩

/-- C2: the claim says an observation with a non-numeric field behaves as
missing, every window touching it is discarded, and no emitted tensor entry
is non-finite.  On `csvBadClose` the Close of ("A", 2020-01-02) parses to
NaN, the unique candidate window (sequenceLength 2, horizon 1) has
2020-01-02 inside its lookback range, yet the window is accepted (its
anchor 2020-01-03 is emitted in `validDates`), and the emitted test tensor
contains NaN: the NaN poisons the symbol's min/max statistics rather than
invalidating the window. -/
theorem nan_window_not_discarded :
    ((parseCSV csvBadClose).stocksData "A" "2020-01-02").map Obs.Close
      = some JsNum.nan
    ∧ windowDates (parseCSV csvBadClose).dates 2 2
      = ["2020-01-02", "2020-01-03"]
    ∧ ((createSequences (parseCSV csvBadClose) 2 1).map (·.validDates))
      = some ["2020-01-03"]
    ∧ ((createSequences (parseCSV csvBadClose) 2 1).map
        (fun r => ((r.X_test.getD 0 []).getD 0 []).getD 1 (.num 0)))
      = some JsNum.nan := by
  refine ⟨by decide, by decide, by decide, by decide⟩

/-- C1: the claim says the evaluator reads, for a (symbol, offset) pair,
the same flattened column at which the sequence builder wrote that pair's
label.  On `csvTwoSymbols` (two symbols, horizon 3) the single test row has
label vector [1,0,0,1,0,0], written offset-major: the label of
(symbol B = index 1, offset 1) sits at column (1-1)*2+1 = 1 and equals 0.
The evaluator instead reads column sIdx*horizon+o = 1*3+0 = 3 for that pair
(`src/gru.js` line 130), whose value is 1 — the label the builder wrote for
(B, offset 2) — so the first trace entry it records for symbol B has truth
1, not the 0 the builder assigned to (B, offset 1). -/
theorem evaluator_column_mismatch :
    ((createSequences (parseCSV csvTwoSymbols) 1 3).map (fun r => r.y_test))
      = some [[1, 0, 0, 1, 0, 0]]
    ∧ ([(1 : ℚ), 0, 0, 1, 0, 0].getD ((1 - 1) * 2 + 1) 9 = 0)
    ∧ ([(1 : ℚ), 0, 0, 1, 0, 0].getD (1 * 3 + 0) 9 = 1)
    ∧ (((evaluatePerStock (initThresholds 6) [[1, 0, 0, 1, 0, 0]]
          [[1, 0, 0, 1, 0, 0]] ["A", "B"] 3).stockPredictions.lookup "B").getD
        []).headD ⟨9, 9, false⟩ = ⟨1, 1, true⟩
    ∧ (1 : ℚ) ≠ 0 := by
  refine ⟨by decide, by decide, by decide, by decide, by decide⟩

/-- If every entry of the thresholds list is 1/2, every lookup through the
`?? 0.5` fallback yields 1/2. -/
theorem thresholdAt_initThresholds (n k : ℕ) :
    thresholdAt (initThresholds n) k = 1/2 := by
  unfold thresholdAt initThresholds
  rcases Nat.lt_or_ge k n with h | h
  · rw [List.getD_eq_getElem _ _ (by simpa using h)]
    simp
  · rw [List.getD_eq_default _ _ (by simpa using h)]

/-- C10: evaluating a freshly constructed `GRUModel` (on which
`setThresholdsFromValidation` has never run) classifies every output column
with decision threshold exactly 0.5: the constructor fills the thresholds
vector with 0.5 (`src/gru.js` line 7), the evaluator falls back to 0.5 on
any absent entry (`src/gru.js` line 131), and the whole evaluation equals
the evaluation with the constant threshold 0.5. -/
theorem uncalibrated_evaluation_uses_half (n : ℕ) (yT yP : List (List ℚ))
    (symbols : List String) (horizon : ℕ) :
    (initThresholds n).length = n
    ∧ (∀ k, thresholdAt (initThresholds n) k = 1/2)
    ∧ evaluatePerStock (initThresholds n) yT yP symbols horizon
        = evaluatePerStockFixedHalf yT yP symbols horizon := by
  refine ⟨List.length_replicate _ _, fun k => thresholdAt_initThresholds n k, ?_⟩
  have h : stockEntries (initThresholds n) yT yP horizon
      = stockEntriesFixedHalf yT yP horizon := by
    funext sIdx
    unfold stockEntries stockEntriesFixedHalf
    simp only [thresholdAt_initThresholds]
  unfold evaluatePerStock evaluatePerStockFixedHalf
  rw [h]

/-- C8: the normalized output of symbol `s` depends only on `s`'s own
observations: for two panels over the same canonical date axis that agree
on `s` at every date (the other symbols' observations arbitrary), the
normalized feature vectors of `s` coincide on every date — `s`'s
normalization statistics are computed from `panel[s][*]` alone. -/
theorem normalize_no_cross_symbol_leak
    (syms1 syms2 dates : List String)
    (data1 data2 : String → String → Option Obs) (s : String)
    (hs1 : s ∈ syms1) (hs2 : s ∈ syms2)
    (hobs : ∀ d, data1 s d = data2 s d) :
    ∀ d, normalizedOf syms1 dates data1 s d = normalizedOf syms2 dates data2 s d := by
  intro d
  have hfun : data1 s = data2 s := funext hobs
  unfold normalizedOf
  rw [hfun]
  simp [hs1, hs2]

/-- Witness for the non-interference theorem at two concrete panels that
agree on symbol A and differ on every other symbol. -/
theorem normalize_no_cross_symbol_leak_witness :
    ("A" ∈ (["A", "B"] : List String))
    ∧ ("A" ∈ (["A", "C"] : List String))
    ∧ normalizedOf ["A", "B"] ["2020-01-01"] leakData1 "A" "2020-01-01"
        = normalizedOf ["A", "C"] ["2020-01-01"] leakData2 "A" "2020-01-01" :=
  ⟨by decide, by decide,
    normalize_no_cross_symbol_leak ["A", "B"] ["A", "C"] ["2020-01-01"]
      leakData1 leakData2 "A" (by decide) (by decide) (fun _ => rfl)
      "2020-01-01"⟩

/-- C9: `normalizeData` returns (rather than throwing on line 147 of
`src/data-loader.js`) exactly when the first symbol of the sorted symbol
list has an observation on the first date of the sorted date axis — a panel
with zero symbols or zero dates, or one whose (first symbol, first date)
entry is missing, makes it throw; on success it sets
`numFeaturesPerStock` to 6, the key count of a normalized point. -/
theorem normalizeData_first_entry (L : LoaderState) :
    ((normalizeData L).isSome = true ↔
      ∃ s d, L.symbols.head? = some s ∧ L.dates.head? = some d
        ∧ (L.stocksData s d).isSome = true)
    ∧ (∀ nd n, normalizeData L = some (nd, n) → n = 6) := by
  obtain ⟨syms, dates, data⟩ := L
  cases syms with
  | nil => simp [normalizeData]
  | cons s0 st =>
    cases dates with
    | nil => simp [normalizeData]
    | cons d0 dt =>
      have hmem : s0 ∈ s0 :: st ∧ d0 ∈ d0 :: dt :=
        ⟨List.mem_cons_self _ _, List.mem_cons_self _ _⟩
      cases hd : data s0 d0 with
      | none =>
        constructor
        · simp only [normalizeData, normalizedOf, List.head?_cons]
          rw [if_pos hmem, hd]
          simp only [Option.map_none', Option.isSome_none]
          constructor
          · intro h; cases h
          · rintro ⟨s, d, hs, hdd, hsome⟩
            cases hs; cases hdd
            rw [hd] at hsome; cases hsome
        · intro nd n h
          simp only [normalizeData, normalizedOf, List.head?_cons] at h
          rw [if_pos hmem, hd] at h
          cases h
      | some p =>
        constructor
        · simp only [normalizeData, normalizedOf, List.head?_cons]
          rw [if_pos hmem, hd]
          simp only [Option.map_some', Option.isSome_some, true_iff]
          exact ⟨s0, d0, rfl, rfl, by rw [hd]; rfl⟩
        · intro nd n h
          simp only [normalizeData, normalizedOf, List.head?_cons] at h
          rw [if_pos hmem, hd] at h
          simp only [Option.map_some', Option.some.injEq, Prod.mk.injEq] at h
          exact h.2.symm

/-- Witness for the precondition theorem at a concrete loaded panel whose
first symbol has an observation on the first date. -/
theorem normalizeData_first_entry_witness :
    (normalizeData constState).isSome = true ∧ (6 : ℕ) = 6 :=
  ⟨(normalizeData_first_entry constState).1.mpr
      ⟨"A", "2020-01-01", rfl, rfl, by decide⟩,
    (normalizeData_first_entry constState).2 _ 6 rfl⟩

/-- The scan result's score bounds every candidate's score and the initial
score. -/
theorem scanBest_le (f : ℚ → ℚ) :
    ∀ (l : List ℚ) (b : ℚ × ℚ),
      (∀ th ∈ l, f th ≤ (scanBest f b l).2) ∧ b.2 ≤ (scanBest f b l).2 := by
  intro l
  induction l with
  | nil =>
    intro b
    exact ⟨fun th h => absurd h (List.not_mem_nil th), le_refl _⟩
  | cons th t ih =>
    intro b
    have hstep : scanBest f b (th :: t)
        = scanBest f (if f th > b.2 then (th, f th) else b) t := rfl
    set b' := if f th > b.2 then (th, f th) else b with hb'
    have hb2 : b.2 ≤ b'.2 := by
      rw [hb']; split
      · exact le_of_lt (by assumption)
      · exact le_refl _
    have hth : f th ≤ b'.2 := by
      rw [hb']; split
      · exact le_refl _
      · exact le_of_not_lt (by assumption)
    refine ⟨?_, ?_⟩
    · intro x hx
      rcases List.mem_cons.mp hx with rfl | hx
      · exact le_trans hth (by rw [hstep]; exact (ih b').2)
      · rw [hstep]; exact (ih b').1 x hx
    · exact le_trans hb2 (by rw [hstep]; exact (ih b').2)

/-- When the scan strictly improves on the initial score, the selected
candidate splits the list so that every earlier candidate scores strictly
below the result — the first maximizer wins; otherwise the scan returns the
initial pair unchanged. -/
theorem scanBest_first_max (f : ℚ → ℚ) :
    ∀ (l : List ℚ) (b : ℚ × ℚ),
      (b.2 < (scanBest f b l).2 →
        ∃ pre post, l = pre ++ (scanBest f b l).1 :: post
          ∧ f (scanBest f b l).1 = (scanBest f b l).2
          ∧ ∀ th ∈ pre, f th < (scanBest f b l).2)
      ∧ (¬ b.2 < (scanBest f b l).2 → scanBest f b l = b) := by
  intro l
  induction l with
  | nil =>
    intro b
    exact ⟨fun h => absurd h (lt_irrefl _), fun _ => rfl⟩
  | cons th t ih =>
    intro b
    by_cases h : f th > b.2
    · have hstep : scanBest f b (th :: t) = scanBest f (th, f th) t := by
        simp only [scanBest, List.foldl_cons]
        rw [if_pos h]
      have hge : f th ≤ (scanBest f (th, f th) t).2 :=
        (scanBest_le f t (th, f th)).2
      constructor
      · intro _
        by_cases h2 : (th, f th).2 < (scanBest f (th, f th) t).2
        · obtain ⟨pre, post, hdec, hfr, hpre⟩ := (ih (th, f th)).1 h2
          refine ⟨th :: pre, post, ?_, ?_, ?_⟩
          · rw [hstep, List.cons_append, ← hdec]
          · rw [hstep]; exact hfr
          · intro x hx
            rcases List.mem_cons.mp hx with rfl | hx
            · rw [hstep]; exact h2
            · rw [hstep]; exact hpre x hx
        · have heq := (ih (th, f th)).2 h2
          refine ⟨[], t, ?_, ?_, ?_⟩
          · rw [hstep, heq]; rfl
          · rw [hstep, heq]
          · intro x hx; cases hx
      · intro hn
        exact absurd (lt_of_lt_of_le h (by rw [hstep]; exact hge)) hn
    · have hstep : scanBest f b (th :: t) = scanBest f b t := by
        simp only [scanBest, List.foldl_cons]
        rw [if_neg h]
      constructor
      · intro hlt
        rw [hstep] at hlt
        obtain ⟨pre, post, hdec, hfr, hpre⟩ := (ih b).1 hlt
        refine ⟨th :: pre, post, ?_, ?_, ?_⟩
        · rw [hstep, List.cons_append, ← hdec]
        · rw [hstep]; exact hfr
        · intro x hx
          rcases List.mem_cons.mp hx with rfl | hx
          · rw [hstep]
            exact lt_of_le_of_lt (le_of_not_lt h) hlt
          · rw [hstep]; exact hpre x hx
      · intro hn
        rw [hstep] at hn ⊢
        exact (ih b).2 hn

/-- Column accuracy is a ratio of nonnegative quantities. -/
theorem colAccuracy_nonneg (yT yP : List (List ℚ)) (k : ℕ) (th : ℚ) :
    0 ≤ colAccuracy yT yP k th := by
  unfold colAccuracy
  split <;> positivity

/-- The calibration grid is sorted in (weakly) increasing order. -/
theorem thresholdGrid_sorted : thresholdGrid.Pairwise (· ≤ ·) := by
  have h : ∀ l : List ℕ, l.Pairwise (· < ·) →
      (l.map (fun (k : ℕ) => (k : ℚ) / 100)).Pairwise (· ≤ ·) := by
    intro l hl
    induction hl with
    | nil => simp
    | cons hab _ ih =>
        rw [List.map_cons, List.pairwise_cons]
        refine ⟨?_, ih⟩
        intro y hy
        obtain ⟨x, hx, rfl⟩ := List.mem_map.mp hy
        gcongr
        exact_mod_cast le_of_lt (hab x hx)
  exact h _ (List.pairwise_lt_range' 20 60)

set_option maxRecDepth 100000 in
/-- C4: `setThresholdsFromValidation` stores, for every output column `k`,
the grid threshold whose binary accuracy against the validation truth is
maximal, ties broken by the lowest (first-encountered) threshold of the
scan; since the grid contains 0.5, the calibrated accuracy of column `k` is
at least its accuracy under threshold 0.5. -/
theorem calibrated_threshold_optimal (yT yP : List (List ℚ)) (k : ℕ) :
    bestThreshold yT yP k ∈ thresholdGrid
    ∧ (∀ th ∈ thresholdGrid,
        colAccuracy yT yP k th ≤ colAccuracy yT yP k (bestThreshold yT yP k))
    ∧ (∀ th ∈ thresholdGrid,
        colAccuracy yT yP k th = colAccuracy yT yP k (bestThreshold yT yP k)
          → bestThreshold yT yP k ≤ th)
    ∧ colAccuracy yT yP k (1/2) ≤ colAccuracy yT yP k (bestThreshold yT yP k)
    ∧ (∀ n, k < n →
        (setThresholdsFromValidation n yT yP).getD k 0 = bestThreshold yT yP k) := by
  have hgridhalf : (1/2 : ℚ) ∈ thresholdGrid := by
    unfold thresholdGrid
    exact List.mem_map.mpr ⟨50, by decide, by norm_num⟩
  set f := colAccuracy yT yP k with hf
  set r := scanBest f ((1/2 : ℚ), (-1 : ℚ)) thresholdGrid with hr
  have hbest : bestThreshold yT yP k = r.1 := rfl
  have hub := scanBest_le f thresholdGrid ((1/2 : ℚ), (-1 : ℚ))
  have hstrict : ((1/2 : ℚ), (-1 : ℚ)).2 < r.2 := by
    have h0 : (0 : ℚ) ≤ f (1/2) := colAccuracy_nonneg yT yP k _
    have := hub.1 _ hgridhalf
    show (-1 : ℚ) < r.2
    linarith
  obtain ⟨pre, post, hdec, hfr, hpre⟩ :=
    (scanBest_first_max f thresholdGrid ((1/2 : ℚ), (-1 : ℚ))).1 hstrict
  have hmem : bestThreshold yT yP k ∈ thresholdGrid := by
    rw [hbest, hdec]
    exact List.mem_append_right _ (List.mem_cons_self _ _)
  have hmax : ∀ th ∈ thresholdGrid, f th ≤ f (bestThreshold yT yP k) := by
    intro th hth
    rw [hbest, hfr]
    exact hub.1 th hth
  refine ⟨hmem, hmax, ?_, hmax _ hgridhalf, ?_⟩
  · intro th hth htie
    rw [hbest]
    have hsorted := thresholdGrid_sorted
    rw [hdec] at hth hsorted
    rcases List.mem_append.mp hth with hth | hth
    · exfalso
      have := hpre th hth
      rw [hbest, hfr] at htie
      exact absurd htie (ne_of_lt this)
    · rcases List.mem_cons.mp hth with rfl | hth
      · exact le_refl _
      · have := (List.pairwise_append.mp hsorted).2.1
        exact (List.pairwise_cons.mp this).1 th hth
  · intro n hkn
    unfold setThresholdsFromValidation
    rw [List.getD_eq_getElem _ _ (by simpa using hkn)]
    simp

/-- Witness for the calibration theorem at a concrete one-row validation
set, discharging the grid-membership and column-bound hypotheses. -/
theorem calibrated_threshold_optimal_witness :
    ((1 : ℚ)/5 ∈ thresholdGrid)
    ∧ (0 < 6)
    ∧ colAccuracy [[1]] [[1]] 0 (1/5)
        ≤ colAccuracy [[1]] [[1]] 0 (bestThreshold [[1]] [[1]] 0)
    ∧ (setThresholdsFromValidation 6 [[1]] [[1]]).getD 0 0
        = bestThreshold [[1]] [[1]] 0 :=
  ⟨List.mem_map.mpr ⟨20, by decide, by norm_num⟩, by decide,
    (calibrated_threshold_optimal [[1]] [[1]] 0).2.1 (1/5)
      (List.mem_map.mpr ⟨20, by decide, by norm_num⟩),
    (calibrated_threshold_optimal [[1]] [[1]] 0).2.2.2.2 6 (by decide)⟩

/-- The split index never exceeds the number of accepted windows. -/
theorem splitIndex_le (n : ℕ) : splitIndex n ≤ n := by
  unfold splitIndex
  calc n * 4 / 5 ≤ n * 4 / 4 := Nat.div_le_div_left (by norm_num) (by norm_num)
    _ = n := Nat.mul_div_cancel _ (by norm_num)

/-- Every accepted anchor index is a valid index into the date axis. -/
theorem acceptedIndices_lt_length (L : LoaderState)
    (nd : String → String → Option NormPoint) (seqLen H : ℕ) :
    ∀ i ∈ acceptedIndices L nd seqLen H, i < L.dates.length := by
  intro i hi
  have hr : i ∈ seqIndices L.dates.length seqLen H :=
    List.mem_of_mem_filter hi
  unfold seqIndices at hr
  have h2 := List.mem_range'_1.mp hr
  omega

/-- The accepted anchor indices are strictly increasing. -/
theorem acceptedIndices_pairwise (L : LoaderState)
    (nd : String → String → Option NormPoint) (seqLen H : ℕ) :
    (acceptedIndices L nd seqLen H).Pairwise (· < ·) := by
  unfold acceptedIndices seqIndices
  exact (List.pairwise_lt_range' _ _).filter _

/-- C5: for a run accepting N windows the training partition has exactly
⌊0.8·N⌋ triples and the test partition the remaining N − ⌊0.8·N⌋; on a
strictly sorted date axis the emitted anchor dates are strictly increasing
(both partitions, being contiguous slices, preserve that order), and the
retained `testDates` is the anchor-date array parallel to the test
partition: all three test lists are images of the same dropped suffix of
accepted anchor indices. -/
theorem createSequences_split_contract (L : LoaderState)
    (nd : String → String → Option NormPoint) (seqLen H : ℕ)
    (hsorted : L.dates.Pairwise (fun a b => strLt a b = true)) :
    (createSequencesCore L nd seqLen H).X_train.length
        = splitIndex (acceptedIndices L nd seqLen H).length
    ∧ (createSequencesCore L nd seqLen H).X_test.length
        = (acceptedIndices L nd seqLen H).length
            - splitIndex (acceptedIndices L nd seqLen H).length
    ∧ (createSequencesCore L nd seqLen H).X_train.length
        + (createSequencesCore L nd seqLen H).X_test.length
        = (acceptedIndices L nd seqLen H).length
    ∧ (createSequencesCore L nd seqLen H).validDates.Pairwise
        (fun a b => strLt a b = true)
    ∧ (createSequencesCore L nd seqLen H).testDates
        = (createSequencesCore L nd seqLen H).validDates.drop
            (splitIndex (acceptedIndices L nd seqLen H).length)
    ∧ (createSequencesCore L nd seqLen H).X_test
        = ((acceptedIndices L nd seqLen H).drop
            (splitIndex (acceptedIndices L nd seqLen H).length)).map
              (sequenceOf L.symbols nd L.dates seqLen)
    ∧ (createSequencesCore L nd seqLen H).y_test
        = ((acceptedIndices L nd seqLen H).drop
            (splitIndex (acceptedIndices L nd seqLen H).length)).map
              (targetOf L.symbols L.stocksData L.dates H)
    ∧ (createSequencesCore L nd seqLen H).testDates
        = ((acceptedIndices L nd seqLen H).drop
            (splitIndex (acceptedIndices L nd seqLen H).length)).map
              (fun i => L.dates.getD i "") := by
  set acc := acceptedIndices L nd seqLen H with hacc
  have hlen : ∀ {β : Type} (f : ℕ → β), (acc.map f).length = acc.length :=
    fun f => List.length_map acc f
  refine ⟨?_, ?_, ?_, ?_, ?_, ?_, ?_, ?_⟩
  · simp only [createSequencesCore, ← hacc, List.length_take, hlen]
    exact Nat.min_eq_left (splitIndex_le acc.length)
  · simp only [createSequencesCore, ← hacc, List.length_drop, hlen]
  · simp only [createSequencesCore, ← hacc, List.length_take, List.length_drop,
      hlen]
    have h := splitIndex_le acc.length
    omega
  · simp only [createSequencesCore, ← hacc]
    have hbound := acceptedIndices_lt_length L nd seqLen H
    rw [← hacc] at hbound
    have hpw : acc.Pairwise
        (fun i j => i < j ∧ i < L.dates.length ∧ j < L.dates.length) := by
      refine (acceptedIndices_pairwise L nd seqLen H).imp_of_mem ?_
      intro a b ha hb hlt
      rw [← hacc] at ha hb
      exact ⟨hlt, hbound a ha, hbound b hb⟩
    refine hpw.map _ ?_
    intro a b ⟨hab, haD, hbD⟩
    have hget := (List.pairwise_iff_getElem.mp hsorted) a b haD hbD hab
    rwa [List.getD_eq_getElem _ _ haD, List.getD_eq_getElem _ _ hbD]
  · simp only [createSequencesCore, ← hacc, hlen]
  · simp only [createSequencesCore, ← hacc, hlen, List.map_drop]
  · simp only [createSequencesCore, ← hacc, hlen, List.map_drop]
  · simp only [createSequencesCore, ← hacc, hlen, List.map_drop]

/-- Witness for the split contract at a concrete three-date panel. -/
theorem createSequences_split_contract_witness :
    (constState.dates.Pairwise (fun a b => strLt a b = true))
    ∧ (createSequencesCore constState
        (normalizedOf constState.symbols constState.dates constState.stocksData)
        1 1).X_train.length
      = splitIndex (acceptedIndices constState
          (normalizedOf constState.symbols constState.dates constState.stocksData)
          1 1).length :=
  ⟨by decide,
    (createSequences_split_contract constState
      (normalizedOf constState.symbols constState.dates constState.stocksData)
      1 1 (by decide)).1⟩

/-- Reading a flat-mapped list of constant-length blocks at `k·S + s` reads
entry `s` of block `k`. -/
theorem flatMap_blocks_get? {α β : Type} (g : α → List β) (S s : ℕ)
    (hsS : s < S) :
    ∀ (l : List α), (∀ x ∈ l, (g x).length = S) →
      ∀ k, (l.flatMap g).get? (k * S + s)
        = (l.get? k).bind (fun x => (g x).get? s) := by
  intro l
  induction l with
  | nil => intro _ k; simp
  | cons x t ih =>
    intro hlen k
    have hx : (g x).length = S := hlen x (List.mem_cons_self x t)
    rw [List.flatMap_cons]
    cases k with
    | zero =>
      rw [Nat.zero_mul, Nat.zero_add, List.get?_append (by rw [hx]; exact hsS)]
      simp
    | succ k =>
      rw [List.get?_append_right (by rw [hx, Nat.succ_mul]; omega)]
      rw [hx]
      have harith : (k + 1) * S + s - S = k * S + s := by
        rw [Nat.succ_mul]; omega
      rw [harith, List.get?_cons_succ]
      exact ih (fun y hy => hlen y (List.mem_cons_of_mem x hy)) k

/-- C6: for every accepted window with anchor index `i`, symbol index `s`
and offset `off` in 1..H, the label the builder wrote at flattened column
`(off-1)·numSymbols + s` (offset-major order) is 1 exactly when the
symbol's raw Close at `dates[i+off]` strictly exceeds its raw Close at
`dates[i]`, and 0 when the two are equal. -/
theorem label_strict_close (L : LoaderState)
    (nd : String → String → Option NormPoint) (seqLen H i s off : ℕ)
    (p q : Obs) (b c : ℚ)
    (hacc : i ∈ acceptedIndices L nd seqLen H)
    (hs : s < L.symbols.length)
    (hoff1 : 1 ≤ off) (hoffH : off ≤ H)
    (hbase : L.stocksData (L.symbols.getD s "") (L.dates.getD i "") = some p)
    (hb : p.Close = .num b)
    (hfut : L.stocksData (L.symbols.getD s "") (L.dates.getD (i + off) "")
        = some q)
    (hc : q.Close = .num c) :
    targetOf L.symbols L.stocksData L.dates H i
        ∈ (createSequencesCore L nd seqLen H).targets
    ∧ ((targetOf L.symbols L.stocksData L.dates H i).getD
        ((off - 1) * L.symbols.length + s) 2 = 1 ↔ b < c)
    ∧ (c = b →
        (targetOf L.symbols L.stocksData L.dates H i).getD
          ((off - 1) * L.symbols.length + s) 2 = 0) := by
  have hmem : targetOf L.symbols L.stocksData L.dates H i
      ∈ (createSequencesCore L nd seqLen H).targets := by
    simp only [createSequencesCore]
    exact List.mem_map_of_mem _ hacc
  have hval : (targetOf L.symbols L.stocksData L.dates H i).get?
      ((off - 1) * L.symbols.length + s)
      = some (if b < c then 1 else 0) := by
    unfold targetOf
    rw [flatMap_blocks_get? _ L.symbols.length s hs _
      (fun x _ => List.length_map _ _) (off - 1)]
    have hrange : (List.range' 1 H).get? (off - 1) = some off := by
      rw [List.get?_eq_getElem?, List.getElem?_range' 1 1 (show off - 1 < H by omega)]
      congr 1
      omega
    rw [hrange, Option.some_bind, List.get?_eq_getElem?, List.getElem?_map,
      List.getElem?_eq_getElem hs]
    simp only [Option.map_some']
    rw [List.getD_eq_getElem _ _ hs] at hbase hfut
    unfold closeAt
    rw [hbase, hfut]
    simp only [Option.elim_some, hb, hc, jsGt]
    by_cases hbc : b < c
    · rw [if_pos (by exact decide_eq_true hbc), if_pos hbc]
    · rw [if_neg (by simpa using hbc), if_neg hbc]
  have hgetD : (targetOf L.symbols L.stocksData L.dates H i).getD
      ((off - 1) * L.symbols.length + s) 2 = if b < c then 1 else 0 := by
    rw [List.getD_eq_getElem?_getD, ← List.get?_eq_getElem?, hval]
    rfl
  refine ⟨hmem, ?_, ?_⟩
  · rw [hgetD]
    by_cases hbc : b < c
    · simp [hbc]
    · simp [hbc]
  · intro hcb
    rw [hgetD, if_neg (by rw [hcb]; exact lt_irrefl b)]

/-- Witness for the label theorem: on the two-symbol panel, the label of
(symbol B, offset 2) at anchor index 1 is 1 because Close rises from 10 to
20. -/
theorem label_strict_close_witness :
    ((10 : ℚ) < 20)
    ∧ (targetOf (parseCSV csvTwoSymbols).symbols
        (parseCSV csvTwoSymbols).stocksData
        (parseCSV csvTwoSymbols).dates 3 1).getD ((2 - 1) * 2 + 1) 2 = 1 :=
  ⟨by norm_num,
    (label_strict_close (parseCSV csvTwoSymbols)
      (normalizedOf (parseCSV csvTwoSymbols).symbols
        (parseCSV csvTwoSymbols).dates (parseCSV csvTwoSymbols).stocksData)
      1 3 1 1 2
      { Open := jsParseFloat "1", Close := jsParseFloat "10",
        High := jsParseFloat "1", Low := jsParseFloat "1",
        Volume := jsParseFloat "1" }
      { Open := jsParseFloat "1", Close := jsParseFloat "20",
        High := jsParseFloat "1", Low := jsParseFloat "1",
        Volume := jsParseFloat "1" }
      10 20 (by decide) (by decide) (by decide) (by decide)
      (by decide) (by decide) (by decide) (by decide)).2.1.mpr (by norm_num)⟩

/-- Unfolding one date of the per-feature min/max fold. -/
theorem featMMFrom_cons (mm0 : MinMax) (d : String) (t : List String)
    (dataS : String → Option Obs) (g : Obs → JsNum) :
    featMMFrom mm0 (d :: t) dataS g
      = featMMFrom (match dataS d with
          | some p => updMM mm0 (g p)
          | none => mm0) t dataS g := rfl

/-- The min/max fold step on an available date. -/
theorem featMMFrom_some {dataS : String → Option Obs} {d : String} {p : Obs}
    (h : dataS d = some p) (mm0 : MinMax) (t : List String) (g : Obs → JsNum) :
    featMMFrom mm0 (d :: t) dataS g = featMMFrom (updMM mm0 (g p)) t dataS g := by
  rw [featMMFrom_cons, h]

/-- The min/max fold step on a missing date. -/
theorem featMMFrom_none {dataS : String → Option Obs} {d : String}
    (h : dataS d = none) (mm0 : MinMax) (t : List String) (g : Obs → JsNum) :
    featMMFrom mm0 (d :: t) dataS g = featMMFrom mm0 t dataS g := by
  rw [featMMFrom_cons, h]

/-- The single-pass statistics fold computes each feature's min/max fold
componentwise. -/
theorem statsOf_from (dataS : String → Option Obs) :
    ∀ (dates : List String) (st : Stats),
      dates.foldl (fun st d => match dataS d with
        | some p => updStats st p
        | none => st) st
      = { Open := featMMFrom st.Open dates dataS (·.Open)
          Close := featMMFrom st.Close dates dataS (·.Close)
          High := featMMFrom st.High dates dataS (·.High)
          Low := featMMFrom st.Low dates dataS (·.Low)
          Volume := featMMFrom st.Volume dates dataS (·.Volume)
          Return := featMMFrom st.Return dates dataS jsRet } := by
  intro dates
  induction dates with
  | nil => intro st; rfl
  | cons d t ih =>
    intro st
    cases h : dataS d with
    | some p =>
      simp only [List.foldl_cons, h, featMMFrom_cons]
      rw [ih (updStats st p)]
      rfl
    | none =>
      simp only [List.foldl_cons, h, featMMFrom_cons]
      exact ih st

/-- `statsOf` decomposed into the six per-feature folds. -/
theorem statsOf_eq (dates : List String) (dataS : String → Option Obs) :
    statsOf dates dataS
      = { Open := featMM dates dataS (·.Open)
          Close := featMM dates dataS (·.Close)
          High := featMM dates dataS (·.High)
          Low := featMM dates dataS (·.Low)
          Volume := featMM dates dataS (·.Volume)
          Return := featMM dates dataS jsRet } :=
  statsOf_from dataS dates initStats

/-- Once the accumulator reaches `{min c, max c}` it stays there when every
remaining value of the feature is the constant `c`. -/
theorem featMMFrom_cc (dataS : String → Option Obs) (g : Obs → JsNum)
    (c : ℚ) :
    ∀ (dates : List String),
      (∀ d ∈ dates, ∀ p, dataS d = some p → g p = .num c) →
      featMMFrom ⟨.num c, .num c⟩ dates dataS g = ⟨.num c, .num c⟩ := by
  intro dates
  induction dates with
  | nil => intro _; rfl
  | cons d t ih =>
    intro hc
    cases h : dataS d with
    | none =>
      rw [featMMFrom_none h]
      exact ih (fun d' hd' p hp => hc d' (List.mem_cons_of_mem _ hd') p hp)
    | some p =>
      have hg : g p = .num c := hc d (List.mem_cons_self _ _) p h
      rw [featMMFrom_some h]
      have habs : updMM ⟨.num c, .num c⟩ (g p) = ⟨.num c, .num c⟩ := by
        rw [hg]; simp [updMM, jsMin, jsMax]
      rw [habs]
      exact ih (fun d' hd' p' hp' => hc d' (List.mem_cons_of_mem _ hd') p' hp')

/-- If a feature is the constant `c` on every available date and at least
one date is available, its min/max fold is exactly `{min c, max c}`. -/
theorem featMM_const (dataS : String → Option Obs) (g : Obs → JsNum)
    (c : ℚ) :
    ∀ (dates : List String) (d0 : String) (p0 : Obs),
      d0 ∈ dates → dataS d0 = some p0 →
      (∀ d ∈ dates, ∀ p, dataS d = some p → g p = .num c) →
      featMM dates dataS g = ⟨.num c, .num c⟩ := by
  intro dates
  induction dates with
  | nil => intro d0 p0 h; cases h
  | cons d t ih =>
    intro d0 p0 hd0 hp0 hc
    unfold featMM
    cases h : dataS d with
    | some p =>
      have hg : g p = .num c := hc d (List.mem_cons_self _ _) p h
      rw [featMMFrom_some h]
      have hstart : updMM initMM (g p) = ⟨.num c, .num c⟩ := by
        rw [hg]; rfl
      rw [hstart]
      exact featMMFrom_cc dataS g c t
        (fun d' hd' p' hp' => hc d' (List.mem_cons_of_mem _ hd') p' hp')
    | none =>
      rw [featMMFrom_none h]
      have hd0t : d0 ∈ t := by
        rcases List.mem_cons.mp hd0 with rfl | hmem
        · rw [h] at hp0; cases hp0
        · exact hmem
      exact ih d0 p0 hd0t hp0
        (fun d' hd' p' hp' => hc d' (List.mem_cons_of_mem _ hd') p' hp')

/-- A degenerate min/max pair normalizes any value to exactly 0: the
`denom === 0` guard fires and the division is never executed. -/
theorem normFeat_cc (c : ℚ) (v : JsNum) :
    normFeat ⟨.num c, .num c⟩ v = .num 0 := by
  simp [normFeat, jsSub, jsIsZero, sub_self]

/-- The count fold step on an available date. -/
theorem countFrom_some {dataS : String → Option Obs2} {d : String} {p : Obs2}
    (h : dataS d = some p) (n : ℕ) (t : List String) :
    countFrom n (d :: t) dataS = countFrom (n + 1) t dataS := by
  show countFrom (match dataS d with | some _ => n + 1 | none => n) t dataS = _
  rw [h]

/-- The count fold step on a missing date. -/
theorem countFrom_none {dataS : String → Option Obs2} {d : String}
    (h : dataS d = none) (n : ℕ) (t : List String) :
    countFrom n (d :: t) dataS = countFrom n t dataS := by
  show countFrom (match dataS d with | some _ => n + 1 | none => n) t dataS = _
  rw [h]

/-- The running count from `n` is `n` plus the count from 0. -/
theorem countFrom_shift (dataS : String → Option Obs2) :
    ∀ (dates : List String) (n : ℕ),
      countFrom n dates dataS = n + countFrom 0 dates dataS := by
  intro dates
  induction dates with
  | nil => intro n; simp [countFrom]
  | cons d t ih =>
    intro n
    cases h : dataS d with
    | some p => rw [countFrom_some h, countFrom_some h, ih (n + 1), ih (0 + 1)]; omega
    | none => rw [countFrom_none h, countFrom_none h, ih n]

/-- The count is positive when some date has an observation. -/
theorem countFrom_pos (dataS : String → Option Obs2) :
    ∀ (dates : List String) (d0 : String) (p0 : Obs2),
      d0 ∈ dates → dataS d0 = some p0 → 0 < countFrom 0 dates dataS := by
  intro dates
  induction dates with
  | nil => intro d0 p0 h; cases h
  | cons d t ih =>
    intro d0 p0 hd0 hp0
    cases h : dataS d with
    | some p => rw [countFrom_some h, countFrom_shift]; omega
    | none =>
      rw [countFrom_none h]
      have hd0t : d0 ∈ t := by
        rcases List.mem_cons.mp hd0 with rfl | hmem
        · rw [h] at hp0; cases hp0
        · exact hmem
      exact ih d0 p0 hd0t hp0

/-- The sum fold step on an available date. -/
theorem sumFrom_some {dataS : String → Option Obs2} {d : String} {p : Obs2}
    (h : dataS d = some p) (a : ℚ) (t : List String) (g : Obs2 → ℚ) :
    sumFrom a (d :: t) dataS g = sumFrom (a + g p) t dataS g := by
  show sumFrom (match dataS d with | some p => a + g p | none => a) t dataS g = _
  rw [h]

/-- The sum fold step on a missing date. -/
theorem sumFrom_none {dataS : String → Option Obs2} {d : String}
    (h : dataS d = none) (a : ℚ) (t : List String) (g : Obs2 → ℚ) :
    sumFrom a (d :: t) dataS g = sumFrom a t dataS g := by
  show sumFrom (match dataS d with | some p => a + g p | none => a) t dataS g = _
  rw [h]

/-- A constant feature sums to the constant times the count. -/
theorem sumFrom_const (dataS : String → Option Obs2) (g : Obs2 → ℚ)
    (c : ℚ) :
    ∀ (dates : List String) (a : ℚ),
      (∀ d ∈ dates, ∀ p, dataS d = some p → g p = c) →
      sumFrom a dates dataS g = a + c * (countFrom 0 dates dataS : ℚ) := by
  intro dates
  induction dates with
  | nil => intro a _; simp [sumFrom, countFrom]
  | cons d t ih =>
    intro a hc
    cases h : dataS d with
    | some p =>
      have hg : g p = c := hc d (List.mem_cons_self _ _) p h
      rw [sumFrom_some h, countFrom_some h,
        ih (a + g p) (fun d' hd' p' hp' => hc d' (List.mem_cons_of_mem _ hd') p' hp'),
        hg, countFrom_shift dataS t 1]
      push_cast
      ring
    | none =>
      rw [sumFrom_none h, countFrom_none h]
      exact ih a (fun d' hd' p' hp' => hc d' (List.mem_cons_of_mem _ hd') p' hp')

/-- The squared-deviation fold step on an available date. -/
theorem varFrom_some {dataS : String → Option Obs2} {d : String} {p : Obs2}
    (h : dataS d = some p) (a : ℚ) (t : List String) (g : Obs2 → ℚ) (m : ℚ) :
    varFrom a (d :: t) dataS g m
      = varFrom (a + (g p - m) * (g p - m)) t dataS g m := by
  show varFrom (match dataS d with
    | some p => a + (g p - m) * (g p - m)
    | none => a) t dataS g m = _
  rw [h]

/-- The squared-deviation fold step on a missing date. -/
theorem varFrom_none {dataS : String → Option Obs2} {d : String}
    (h : dataS d = none) (a : ℚ) (t : List String) (g : Obs2 → ℚ) (m : ℚ) :
    varFrom a (d :: t) dataS g m = varFrom a t dataS g m := by
  show varFrom (match dataS d with
    | some p => a + (g p - m) * (g p - m)
    | none => a) t dataS g m = _
  rw [h]

/-- Squared deviations of a constant feature from that constant vanish. -/
theorem varFrom_zero (dataS : String → Option Obs2) (g : Obs2 → ℚ)
    (c : ℚ) :
    ∀ (dates : List String) (a : ℚ),
      (∀ d ∈ dates, ∀ p, dataS d = some p → g p = c) →
      varFrom a dates dataS g c = a := by
  intro dates
  induction dates with
  | nil => intro a _; rfl
  | cons d t ih =>
    intro a hc
    cases h : dataS d with
    | some p =>
      have hg : g p = c := hc d (List.mem_cons_self _ _) p h
      rw [varFrom_some h, hg]
      have hz : a + (c - c) * (c - c) = a := by ring
      rw [hz]
      exact ih a (fun d' hd' p' hp' => hc d' (List.mem_cons_of_mem _ hd') p' hp')
    | none =>
      rw [varFrom_none h]
      exact ih a (fun d' hd' p' hp' => hc d' (List.mem_cons_of_mem _ hd') p' hp')

/-- The first z-score pass computes the two sums and the count
componentwise. -/
theorem zPass1_eq (dates : List String) (dataS : String → Option Obs2) :
    zPass1 dates dataS
      = (sumFrom 0 dates dataS Obs2.Open, sumFrom 0 dates dataS Obs2.Close,
         countFrom 0 dates dataS) := by
  suffices h : ∀ (l : List String) (acc : ℚ × ℚ × ℕ),
      l.foldl (fun acc d => match dataS d with
        | some p => (acc.1 + p.Open, acc.2.1 + p.Close, acc.2.2 + 1)
        | none => acc) acc
      = (sumFrom acc.1 l dataS Obs2.Open, sumFrom acc.2.1 l dataS Obs2.Close,
         countFrom acc.2.2 l dataS) by
    exact h dates (0, 0, 0)
  intro l
  induction l with
  | nil => intro acc; rfl
  | cons d t ih =>
    intro acc
    cases h : dataS d with
    | some p =>
      rw [sumFrom_some h, sumFrom_some h, countFrom_some h, List.foldl_cons]
      show List.foldl _ (match dataS d with
        | some p => (acc.1 + p.Open, acc.2.1 + p.Close, acc.2.2 + 1)
        | none => acc) t = _
      rw [h]
      exact ih _
    | none =>
      rw [sumFrom_none h, sumFrom_none h, countFrom_none h, List.foldl_cons]
      show List.foldl _ (match dataS d with
        | some p => (acc.1 + p.Open, acc.2.1 + p.Close, acc.2.2 + 1)
        | none => acc) t = _
      rw [h]
      exact ih _

/-- The second z-score pass computes the two squared-deviation sums
componentwise. -/
theorem zPass2_eq (dates : List String) (dataS : String → Option Obs2)
    (mO mC : ℚ) :
    zPass2 dates dataS mO mC
      = (varFrom 0 dates dataS Obs2.Open mO, varFrom 0 dates dataS Obs2.Close mC) := by
  suffices h : ∀ (l : List String) (acc : ℚ × ℚ),
      l.foldl (fun acc d => match dataS d with
        | some p => (acc.1 + (p.Open - mO) * (p.Open - mO),
                     acc.2 + (p.Close - mC) * (p.Close - mC))
        | none => acc) acc
      = (varFrom acc.1 l dataS Obs2.Open mO, varFrom acc.2 l dataS Obs2.Close mC) by
    exact h dates (0, 0)
  intro l
  induction l with
  | nil => intro acc; rfl
  | cons d t ih =>
    intro acc
    cases h : dataS d with
    | some p =>
      rw [varFrom_some h, varFrom_some h, List.foldl_cons]
      show List.foldl _ (match dataS d with
        | some p => (acc.1 + (p.Open - mO) * (p.Open - mO),
                     acc.2 + (p.Close - mC) * (p.Close - mC))
        | none => acc) t = _
      rw [h]
      exact ih _
    | none =>
      rw [varFrom_none h, varFrom_none h, List.foldl_cons]
      show List.foldl _ (match dataS d with
        | some p => (acc.1 + (p.Open - mO) * (p.Open - mO),
                     acc.2 + (p.Close - mC) * (p.Close - mC))
        | none => acc) t = _
      rw [h]
      exact ih _

/-- For a symbol whose Open is the constant `c` on every available date
(at least one), the z-score statistics give mean `c` and (guarded) std 1. -/
theorem zStats_const_open (sq : ℚ → ℚ) (dates : List String)
    (dataS : String → Option Obs2) (c : ℚ) (hsq : sq 0 = 0)
    (d0 : String) (p0 : Obs2) (hd0 : d0 ∈ dates) (hp0 : dataS d0 = some p0)
    (hc : ∀ d ∈ dates, ∀ p, dataS d = some p → p.Open = c) :
    (zStatsOf sq dates dataS).meanO = c ∧ (zStatsOf sq dates dataS).stdO = 1 := by
  have hcnt : 0 < countFrom 0 dates dataS := countFrom_pos dataS dates d0 p0 hd0 hp0
  have hcn0 : (countFrom 0 dates dataS : ℚ) ≠ 0 := by
    exact_mod_cast hcnt.ne'
  have hmean : (zStatsOf sq dates dataS).meanO = c := by
    unfold zStatsOf
    simp only [zPass1_eq, if_neg hcnt.ne']
    rw [sumFrom_const dataS Obs2.Open c dates 0 hc]
    field_simp
  refine ⟨hmean, ?_⟩
  unfold zStatsOf at hmean ⊢
  simp only [zPass1_eq, zPass2_eq, if_neg hcnt.ne'] at hmean ⊢
  rw [hmean] at *
  rw [varFrom_zero dataS Obs2.Open c dates 0 hc]
  by_cases h1 : 1 < countFrom 0 dates dataS
  · rw [if_pos h1, zero_div, hsq]
    simp
  · rw [if_neg h1]
    norm_num

/-- For a symbol whose Close is the constant `c` on every available date
(at least one), the z-score statistics give mean `c` and (guarded) std 1. -/
theorem zStats_const_close (sq : ℚ → ℚ) (dates : List String)
    (dataS : String → Option Obs2) (c : ℚ) (hsq : sq 0 = 0)
    (d0 : String) (p0 : Obs2) (hd0 : d0 ∈ dates) (hp0 : dataS d0 = some p0)
    (hc : ∀ d ∈ dates, ∀ p, dataS d = some p → p.Close = c) :
    (zStatsOf sq dates dataS).meanC = c ∧ (zStatsOf sq dates dataS).stdC = 1 := by
  have hcnt : 0 < countFrom 0 dates dataS := countFrom_pos dataS dates d0 p0 hd0 hp0
  have hcn0 : (countFrom 0 dates dataS : ℚ) ≠ 0 := by
    exact_mod_cast hcnt.ne'
  have hmean : (zStatsOf sq dates dataS).meanC = c := by
    unfold zStatsOf
    simp only [zPass1_eq, if_neg hcnt.ne']
    rw [sumFrom_const dataS Obs2.Close c dates 0 hc]
    field_simp
  refine ⟨hmean, ?_⟩
  unfold zStatsOf at hmean ⊢
  simp only [zPass1_eq, zPass2_eq, if_neg hcnt.ne'] at hmean ⊢
  rw [hmean] at *
  rw [varFrom_zero dataS Obs2.Close c dates 0 hc]
  by_cases h1 : 1 < countFrom 0 dates dataS
  · rw [if_pos h1, zero_div, hsq]
    simp
  · rw [if_neg h1]
    norm_num

/-- C7: a feature that is constant across all of a symbol's available dates
normalizes to exactly 0 on every date, with no NaN or Infinity: in the
min-max normalizer the degenerate range makes the `denom === 0` guard fire
(so the division is unreachable), for all six features including the
derived Return; in the z-score variant a zero standard deviation (or a 0/1
sample count) is replaced by 1 and the centered value is 0. -/
theorem normalize_degenerate_zero (symbols dates : List String)
    (data : String → String → Option Obs) (s d : String) (p : Obs)
    (np : NormPoint)
    (hd : d ∈ dates) (hsd : data s d = some p)
    (hnp : normalizedOf symbols dates data s d = some np) :
    (∀ c : ℚ, (∀ d' ∈ dates, ∀ p', data s d' = some p' → p'.Open = .num c)
      → np.Open = .num 0)
    ∧ (∀ c : ℚ, (∀ d' ∈ dates, ∀ p', data s d' = some p' → p'.Close = .num c)
      → np.Close = .num 0)
    ∧ (∀ c : ℚ, (∀ d' ∈ dates, ∀ p', data s d' = some p' → p'.High = .num c)
      → np.High = .num 0)
    ∧ (∀ c : ℚ, (∀ d' ∈ dates, ∀ p', data s d' = some p' → p'.Low = .num c)
      → np.Low = .num 0)
    ∧ (∀ c : ℚ, (∀ d' ∈ dates, ∀ p', data s d' = some p' → p'.Volume = .num c)
      → np.Volume = .num 0)
    ∧ (∀ c : ℚ, (∀ d' ∈ dates, ∀ p', data s d' = some p' → jsRet p' = .num c)
      → np.Return = .num 0)
    ∧ (∀ (sq : ℚ → ℚ) (dataS2 : String → Option Obs2) (d2 : String)
        (p2 q2 : Obs2) (c : ℚ),
        sq 0 = 0 → d2 ∈ dates → dataS2 d2 = some p2 →
        zNormalize sq dates dataS2 d2 = some q2 →
        ((∀ d' ∈ dates, ∀ p', dataS2 d' = some p' → p'.Open = c)
            → q2.Open = 0)
        ∧ ((∀ d' ∈ dates, ∀ p', dataS2 d' = some p' → p'.Close = c)
            → q2.Close = 0)) := by
  have hnpv : normPoint (statsOf dates (data s)) p = np := by
    unfold normalizedOf at hnp
    split at hnp
    · rw [hsd] at hnp
      simpa using hnp
    · cases hnp
  refine ⟨?_, ?_, ?_, ?_, ?_, ?_, ?_⟩
  · intro c hc
    rw [← hnpv]
    show normFeat (statsOf dates (data s)).Open p.Open = .num 0
    rw [statsOf_eq]
    show normFeat (featMM dates (data s) (·.Open)) p.Open = .num 0
    rw [featMM_const (data s) (·.Open) c dates d p hd hsd hc]
    exact normFeat_cc c p.Open
  · intro c hc
    rw [← hnpv]
    show normFeat (statsOf dates (data s)).Close p.Close = .num 0
    rw [statsOf_eq]
    show normFeat (featMM dates (data s) (·.Close)) p.Close = .num 0
    rw [featMM_const (data s) (·.Close) c dates d p hd hsd hc]
    exact normFeat_cc c p.Close
  · intro c hc
    rw [← hnpv]
    show normFeat (statsOf dates (data s)).High p.High = .num 0
    rw [statsOf_eq]
    show normFeat (featMM dates (data s) (·.High)) p.High = .num 0
    rw [featMM_const (data s) (·.High) c dates d p hd hsd hc]
    exact normFeat_cc c p.High
  · intro c hc
    rw [← hnpv]
    show normFeat (statsOf dates (data s)).Low p.Low = .num 0
    rw [statsOf_eq]
    show normFeat (featMM dates (data s) (·.Low)) p.Low = .num 0
    rw [featMM_const (data s) (·.Low) c dates d p hd hsd hc]
    exact normFeat_cc c p.Low
  · intro c hc
    rw [← hnpv]
    show normFeat (statsOf dates (data s)).Volume p.Volume = .num 0
    rw [statsOf_eq]
    show normFeat (featMM dates (data s) (·.Volume)) p.Volume = .num 0
    rw [featMM_const (data s) (·.Volume) c dates d p hd hsd hc]
    exact normFeat_cc c p.Volume
  · intro c hc
    rw [← hnpv]
    show normFeat (statsOf dates (data s)).Return (jsRet p) = .num 0
    rw [statsOf_eq]
    show normFeat (featMM dates (data s) jsRet) (jsRet p) = .num 0
    rw [featMM_const (data s) jsRet c dates d p hd hsd hc]
    exact normFeat_cc c (jsRet p)
  · intro sq dataS2 d2 p2 q2 c hsq hd2 hp2 hq
    have hqv : (⟨(p2.Open - (zStatsOf sq dates dataS2).meanO)
                  / (zStatsOf sq dates dataS2).stdO,
                (p2.Close - (zStatsOf sq dates dataS2).meanC)
                  / (zStatsOf sq dates dataS2).stdC⟩ : Obs2) = q2 := by
      unfold zNormalize at hq
      rw [if_pos hd2, hp2] at hq
      simpa using hq
    constructor
    · intro hc
      obtain ⟨hm, hs1⟩ := zStats_const_open sq dates dataS2 c hsq d2 p2 hd2 hp2 hc
      rw [← hqv]
      show (p2.Open - (zStatsOf sq dates dataS2).meanO)
          / (zStatsOf sq dates dataS2).stdO = 0
      rw [hm, hs1, hc d2 hd2 p2 hp2]
      simp
    · intro hc
      obtain ⟨hm, hs1⟩ := zStats_const_close sq dates dataS2 c hsq d2 p2 hd2 hp2 hc
      rw [← hqv]
      show (p2.Close - (zStatsOf sq dates dataS2).meanC)
          / (zStatsOf sq dates dataS2).stdC = 0
      rw [hm, hs1, hc d2 hd2 p2 hp2]
      simp

/-- Witness for the degenerate-normalization theorem on the constant
three-date panel: the min-max Open and the z-score Open both come out as
exactly 0. -/
theorem normalize_degenerate_zero_witness :
    ("2020-01-01" ∈ constState.dates)
    ∧ (constState.stocksData "A" "2020-01-01" = some constObs)
    ∧ (normalizedOf constState.symbols constState.dates constState.stocksData
        "A" "2020-01-01"
        = some ⟨.num 0, .num 0, .num 0, .num 0, .num 0, .num 0⟩)
    ∧ ((⟨.num 0, .num 0, .num 0, .num 0, .num 0, .num 0⟩ : NormPoint).Open
        = .num 0)
    ∧ ((⟨0, 0⟩ : Obs2).Open = 0) := by
  have hcOpen : ∀ d' ∈ constState.dates, ∀ p',
      constState.stocksData "A" d' = some p' → p'.Open = .num 3 := by
    intro d' hd' p' hp'
    fin_cases hd' <;>
      · simp only [constState, constObs] at hp'
        rw [if_pos (by simp)] at hp'
        injection hp' with h
        rw [← h]
  have hcOpen2 : ∀ d' ∈ constState.dates, ∀ p',
      constData2 d' = some p' → p'.Open = 3 := by
    intro d' hd' p' hp'
    fin_cases hd' <;>
      · simp only [constData2] at hp'
        rw [if_pos (by simp)] at hp'
        injection hp' with h
        rw [← h]
  refine ⟨by decide, by decide, by decide, ?_, ?_⟩
  · exact (normalize_degenerate_zero constState.symbols constState.dates
      constState.stocksData "A" "2020-01-01" constObs
      ⟨.num 0, .num 0, .num 0, .num 0, .num 0, .num 0⟩
      (by decide) (by decide) (by decide)).1 3 hcOpen
  · exact ((normalize_degenerate_zero constState.symbols constState.dates
      constState.stocksData "A" "2020-01-01" constObs
      ⟨.num 0, .num 0, .num 0, .num 0, .num 0, .num 0⟩
      (by decide) (by decide) (by decide)).2.2.2.2.2.2
      (fun _ => 0) constData2 "2020-01-01" ⟨3, 7⟩ ⟨0, 0⟩ 3
      rfl (by decide) (by decide) (by decide)).1 hcOpen2

end StockGRU
